import Mathlib

/-!
Verification of the de Bruijn pentagrid → Penrose rhombus tiling generator
(`sketch.js` and its palette variant).  The geometric core is embedded
generically over a linear ordered field `K` with a floor structure: the
JavaScript program computes with IEEE doubles; here the same formulas are
interpreted in exact arithmetic.  Witness evaluations instantiate `K := ℚ`;
the trigonometric family normals built by `rebuild` instantiate `K := ℝ`.
-/

namespace Penrose

variable {K : Type} [LinearOrderedField K] [FloorRing K]

/-- JavaScript `Math.trunc` / the implicit truncation inside the `%` operator:
rounding toward zero. -/
def jsTrunc (x : K) : ℤ := if 0 ≤ x then ⌊x⌋ else ⌈x⌉

/-- JavaScript's `%` operator on finite numbers: `x % y = x - y * trunc(x / y)`. -/
def jsFmod (x y : K) : K := x - y * (jsTrunc (x / y) : K)

/-- The offset generator of `rebuild` (sketch.js lines 40–42):
`familyOffsets = [...baseOffsets, (1 - (sum % 1)) % 1]` where `sum` is the
sum of the `FAMILY_COUNT - 1` base draws. -/
def offsetsFrom (draws : List K) : List K :=
  draws ++ [jsFmod (1 - jsFmod draws.sum 1) 1]

/-- The mutable globals of the sketch after a `rebuild`:
`FAMILY_COUNT`, `lineSpacing`, `edgeLength`, `lineRange`, `familyOffsets`,
`familyNormals`, `familyVectors`.  The three per-family arrays are modelled as
functions of the family index. -/
structure SketchData (K : Type) where
  familyCount : ℕ
  lineSpacing : K
  edgeLength : K
  lineRange : ℤ
  familyOffsets : ℕ → K
  familyNormals : ℕ → K × K
  familyVectors : ℕ → K × K

/-- `familyLineOffset(index, k) = (k + familyOffsets[index]) * lineSpacing`. -/
def familyLineOffset (g : SketchData K) (index : ℕ) (k : ℤ) : K :=
  ((k : K) + g.familyOffsets index) * g.lineSpacing

/-- `intersectLines(n1, d1, n2, d2)`: solves the two line equations
`n·p = d`; returns `none` when `|det| < 1e-6`. -/
def intersectLines (n1 : K × K) (d1 : K) (n2 : K × K) (d2 : K) : Option (K × K) :=
  let det := n1.1 * n2.2 - n1.2 * n2.1
  if |det| < 1 / 1000000 then none
  else some ((d1 * n2.2 - d2 * n1.2) / det, (n1.1 * d2 - n2.1 * d1) / det)

/-- `cellIndexAt(point)`: per family, `ceil((n·p)/lineSpacing - offset - 1e-9)`. -/
def cellIndexAt (g : SketchData K) (p : K × K) : ℕ → ℤ := fun idx =>
  ⌈((g.familyNormals idx).1 * p.1 + (g.familyNormals idx).2 * p.2) / g.lineSpacing
    - g.familyOffsets idx - 1 / 1000000000⌉

/-- `vertexFromCellIndex(indexes)`: the dual vertex
`Σ_i familyVectors[i] * indexes[i]` over the `FAMILY_COUNT` families. -/
def vertexFromCellIndex (g : SketchData K) (indexes : ℕ → ℤ) : K × K :=
  (∑ i in Finset.range g.familyCount, (g.familyVectors i).1 * (indexes i : K),
   ∑ i in Finset.range g.familyCount, (g.familyVectors i).2 * (indexes i : K))

/-- The four ordered corners of a tile. -/
abbrev Corners (K : Type) := (K × K) × (K × K) × (K × K) × (K × K)

/-- `rhombusAt(i, j, k, l)`: intersect line `k` of family `i` with line `l` of
family `j`; if they intersect, override the cell index at the crossing with the
exact line indices and emit the four corners `[v0, v1, v2, v3]`. -/
def rhombusAt (g : SketchData K) (i j : ℕ) (k l : ℤ) : Option (Corners K) :=
  (intersectLines (g.familyNormals i) (familyLineOffset g i k)
      (g.familyNormals j) (familyLineOffset g j l)).map fun intersection =>
    let baseIndex := Function.update (Function.update (cellIndexAt g intersection) i k) j l
    let v0 := vertexFromCellIndex g baseIndex
    let v1 := v0 + g.familyVectors i
    let v2 := v1 + g.familyVectors j
    let v3 := v0 + g.familyVectors j
    (v0, v1, v2, v3)

/-- `inViewport(points)`: some corner satisfies `|x| < width*0.55 ∧ |y| < height*0.55`. -/
def inViewport (width height : K) (c : Corners K) : Bool :=
  let limitX := width * (55 / 100)
  let limitY := height * (55 / 100)
  (decide (|c.1.1| < limitX ∧ |c.1.2| < limitY)
    || decide (|c.2.1.1| < limitX ∧ |c.2.1.2| < limitY)
    || decide (|c.2.2.1.1| < limitX ∧ |c.2.2.1.2| < limitY)
    || decide (|c.2.2.2.1| < limitX ∧ |c.2.2.2.2| < limitY))

/-- Claim C2: `intersectLines` returns `none` exactly when
`|n1.x·n2.y − n1.y·n2.x| < 1e-6`, and otherwise the returned point solves both
line equations. -/
theorem intersectLines_spec (n1 n2 : K × K) (d1 d2 : K) :
    (intersectLines n1 d1 n2 d2 = none ↔ |n1.1 * n2.2 - n1.2 * n2.1| < 1 / 1000000) ∧
    (∀ p : K × K, intersectLines n1 d1 n2 d2 = some p →
      n1.1 * p.1 + n1.2 * p.2 = d1 ∧ n2.1 * p.1 + n2.2 * p.2 = d2) := by
  constructor
  · by_cases h : |n1.1 * n2.2 - n1.2 * n2.1| < 1 / 1000000 <;>
      simp [intersectLines, h]
  · intro p hp
    by_cases h : |n1.1 * n2.2 - n1.2 * n2.1| < 1 / 1000000
    · simp only [intersectLines, if_pos h] at hp
      exact absurd hp (by simp)
    · have hd : n1.1 * n2.2 - n1.2 * n2.1 ≠ 0 := by
        intro h0
        rw [h0] at h
        simp at h
      simp only [intersectLines, if_neg h] at hp
      have hp' := Option.some.inj hp
      subst hp'
      constructor
      · show n1.1 * ((d1 * n2.2 - d2 * n1.2) / (n1.1 * n2.2 - n1.2 * n2.1)) +
          n1.2 * ((n1.1 * d2 - n2.1 * d1) / (n1.1 * n2.2 - n1.2 * n2.1)) = d1
        field_simp
        ring
      · show n2.1 * ((d1 * n2.2 - d2 * n1.2) / (n1.1 * n2.2 - n1.2 * n2.1)) +
          n2.2 * ((n1.1 * d2 - n2.1 * d1) / (n1.1 * n2.2 - n1.2 * n2.1)) = d2
        field_simp
        ring

/-- Claim C1: whenever `rhombusAt(i, j, k, l)` returns corners
`[v0, v1, v2, v3]`, they satisfy `v1 = v0 + edgeVector_i`,
`v2 = v1 + edgeVector_j`, `v3 = v0 + edgeVector_j`, and the parallelogram
closure `v2 − v0 = edgeVector_i + edgeVector_j`. -/
theorem rhombusAt_parallelogram (g : SketchData K) (i j : ℕ) (k l : ℤ)
    (c : Corners K) (hij : i ≠ j) (hc : rhombusAt g i j k l = some c) :
    c.2.1 = c.1 + g.familyVectors i ∧
    c.2.2.1 = c.2.1 + g.familyVectors j ∧
    c.2.2.2 = c.1 + g.familyVectors j ∧
    c.2.2.1 - c.1 = g.familyVectors i + g.familyVectors j := by
  rw [rhombusAt, Option.map_eq_some'] at hc
  obtain ⟨p, hp, hfc⟩ := hc
  subst hfc
  refine ⟨rfl, rfl, rfl, ?_⟩
  show vertexFromCellIndex g _ + g.familyVectors i + g.familyVectors j
      - vertexFromCellIndex g _ = g.familyVectors i + g.familyVectors j
  rw [add_assoc, add_sub_cancel_left]

/-- Toy instantiation of the sketch state over `ℚ`, used to witness the
geometric theorems on a concrete input: two families with axis-aligned
normals, unit spacing, zero offsets. -/
def toySketch : SketchData ℚ where
  familyCount := 2
  lineSpacing := 1
  edgeLength := 1
  lineRange := 12
  familyOffsets := fun _ => 0
  familyNormals := fun i => if i = 0 then (1, 0) else (0, 1)
  familyVectors := fun i => if i = 0 then (1, 0) else (0, 1)

/-- Concrete evaluation: in the toy state, families 0 and 1 cross at the
origin and the emitted tile is the unit square. -/
lemma toySketch_rhombusAt :
    rhombusAt toySketch 0 1 0 0 = some ((0, 0), (1, 0), (1, 1), (0, 1)) := by
  have h1 : intersectLines (toySketch.familyNormals 0) (familyLineOffset toySketch 0 0)
      (toySketch.familyNormals 1) (familyLineOffset toySketch 1 0) = some (0, 0) := by
    simp [intersectLines, toySketch, familyLineOffset]
    norm_num
  rw [rhombusAt, h1, Option.map_some']
  have hcell : ∀ m : ℕ, Function.update (Function.update
      (cellIndexAt toySketch ((0 : ℚ), (0 : ℚ))) 0 0) 1 0 m = 0 := by
    intro m
    rcases eq_or_ne m 1 with hm | hm
    · subst hm
      rw [Function.update_same]
    · rw [Function.update_noteq hm]
      rcases eq_or_ne m 0 with hm0 | hm0
      · subst hm0
        rw [Function.update_same]
      · rw [Function.update_noteq hm0, cellIndexAt]
        simp [toySketch]
        norm_num
  have hv : vertexFromCellIndex toySketch (Function.update (Function.update
      (cellIndexAt toySketch ((0 : ℚ), (0 : ℚ))) 0 0) 1 0) = (0, 0) := by
    rw [vertexFromCellIndex]
    simp only [hcell]
    simp [toySketch]
  simp only [hv]
  norm_num [toySketch]

/-- Claim C1 witness. -/
theorem rhombusAt_parallelogram_witness :
    (0 : ℕ) ≠ 1 ∧
    rhombusAt toySketch 0 1 0 0 = some ((0, 0), (1, 0), (1, 1), (0, 1)) ∧
    (((0 : ℚ), (0 : ℚ)), ((1 : ℚ), (0 : ℚ)), ((1 : ℚ), (1 : ℚ)),
        ((0 : ℚ), (1 : ℚ))).2.1 =
      (((0 : ℚ), (0 : ℚ)), ((1 : ℚ), (0 : ℚ)), ((1 : ℚ), (1 : ℚ)),
        ((0 : ℚ), (1 : ℚ))).1 + toySketch.familyVectors 0 :=
  ⟨by decide, toySketch_rhombusAt,
    (rhombusAt_parallelogram toySketch 0 1 0 0 _ (by decide) toySketch_rhombusAt).1⟩

/-- Claim C2 witness. -/
theorem intersectLines_spec_witness :
    (1 : ℚ) * 0 + 0 * 0 = 0 ∧ (0 : ℚ) * 0 + 1 * 0 = 0 :=
  (intersectLines_spec ((1 : ℚ), 0) (0, 1) 0 0).2 (0, 0)
    (by simp [intersectLines]; norm_num)

/-- For a nonnegative argument, the JavaScript `x % 1` is the fractional part. -/
lemma jsFmod_one_of_nonneg (x : K) (hx : 0 ≤ x) : jsFmod x 1 = Int.fract x := by
  unfold jsFmod jsTrunc
  rw [div_one, if_pos hx, one_mul, Int.self_sub_floor]

/-- Claim C3: from any `N−1` draws in `[0,1)`, the generated `N` offsets all
lie in `[0,1)` and their sum is an integer (≡ 0 mod 1). -/
theorem offsetsFrom_spec (N : ℕ) (draws : List K) (hN : 3 ≤ N)
    (hlen : draws.length = N - 1) (hd : ∀ d ∈ draws, 0 ≤ d ∧ d < 1) :
    (offsetsFrom draws).length = N ∧
    (∀ o ∈ offsetsFrom draws, 0 ≤ o ∧ o < 1) ∧
    ∃ z : ℤ, (offsetsFrom draws).sum = (z : K) := by
  have hs : 0 ≤ draws.sum := List.sum_nonneg fun d hd' => (hd d hd').1
  have hfr : jsFmod draws.sum 1 = Int.fract draws.sum := jsFmod_one_of_nonneg _ hs
  have hf0 : 0 ≤ Int.fract draws.sum := Int.fract_nonneg _
  have hf1 : Int.fract draws.sum < 1 := Int.fract_lt_one _
  have hlast : jsFmod (1 - jsFmod draws.sum 1) 1 =
      if Int.fract draws.sum = 0 then 0 else 1 - Int.fract draws.sum := by
    rw [hfr]
    rcases eq_or_ne (Int.fract draws.sum) 0 with h0 | h0
    · rw [h0, if_pos rfl]
      rw [sub_zero, jsFmod_one_of_nonneg _ (by norm_num : (0 : K) ≤ 1)]
      simp [Int.fract]
    · rw [if_neg h0]
      have hlt : 1 - Int.fract draws.sum < 1 := by
        have := lt_of_le_of_ne hf0 (Ne.symm h0)
        linarith
      have hge : 0 ≤ 1 - Int.fract draws.sum := by linarith
      rw [jsFmod_one_of_nonneg _ hge, Int.fract_eq_self.mpr ⟨hge, hlt⟩]
  refine ⟨?_, ?_, ?_⟩
  · rw [offsetsFrom, List.length_append, hlen, List.length_singleton]
    omega
  · intro o ho
    rw [offsetsFrom, List.mem_append, List.mem_singleton] at ho
    rcases ho with ho | ho
    · exact hd o ho
    · subst ho
      rw [hlast]
      rcases eq_or_ne (Int.fract draws.sum) 0 with h0 | h0
      · rw [if_pos h0]
        norm_num
      · rw [if_neg h0]
        have := lt_of_le_of_ne hf0 (Ne.symm h0)
        constructor <;> linarith
  · rw [offsetsFrom, List.sum_append, List.sum_singleton, hlast]
    rcases eq_or_ne (Int.fract draws.sum) 0 with h0 | h0
    · rw [if_pos h0]
      refine ⟨⌊draws.sum⌋, ?_⟩
      have := Int.floor_add_fract draws.sum
      rw [h0] at this
      linarith
    · rw [if_neg h0]
      refine ⟨⌊draws.sum⌋ + 1, ?_⟩
      have := Int.floor_add_fract draws.sum
      push_cast
      linarith

/-- Claim C3 witness. -/
theorem offsetsFrom_spec_witness :
    (offsetsFrom [(1 : ℚ)/2, 1/4]).length = 3 ∧
    (∀ o ∈ offsetsFrom [(1 : ℚ)/2, 1/4], 0 ≤ o ∧ o < 1) ∧
    ∃ z : ℤ, (offsetsFrom [(1 : ℚ)/2, 1/4]).sum = (z : ℚ) :=
  offsetsFrom_spec 3 [(1 : ℚ)/2, 1/4] (by norm_num) (by norm_num)
    (by intro d hd; simp at hd; rcases hd with h | h <;> rw [h] <;> norm_num)

/-- Swapping the two argument lines of `intersectLines` gives the same
result: the determinant flips sign but its absolute value is unchanged, and
the solved point is identical. -/
lemma intersectLines_swap (n1 n2 : K × K) (d1 d2 : K) :
    intersectLines n2 d2 n1 d1 = intersectLines n1 d1 n2 d2 := by
  unfold intersectLines
  have habs : |n2.1 * n1.2 - n2.2 * n1.1| = |n1.1 * n2.2 - n1.2 * n2.1| := by
    rw [show n2.1 * n1.2 - n2.2 * n1.1 = -(n1.1 * n2.2 - n1.2 * n2.1) by ring, abs_neg]
  by_cases h : |n1.1 * n2.2 - n1.2 * n2.1| < 1 / 1000000
  · rw [if_pos (by rw [habs]; exact h), if_pos h]
  · rw [if_neg (by rw [habs]; exact h), if_neg h]
    have hd : n1.1 * n2.2 - n1.2 * n2.1 ≠ 0 := by
      intro h0
      rw [h0] at h
      simp at h
    congr 1
    rw [show n2.1 * n1.2 - n2.2 * n1.1 = -(n1.1 * n2.2 - n1.2 * n2.1) by ring,
      show d2 * n1.2 - d1 * n2.2 = -(d1 * n2.2 - d2 * n1.2) by ring,
      show n2.1 * d1 - n1.1 * d2 = -(n1.1 * d2 - n2.1 * d1) by ring,
      neg_div_neg_eq, neg_div_neg_eq]

/-- Claim C9: `rhombusAt(j, i, l, k)` returns `none` exactly when
`rhombusAt(i, j, k, l)` does, and otherwise the same corners with `v1` and
`v3` exchanged. -/
theorem rhombusAt_swap (g : SketchData K) (i j : ℕ) (k l : ℤ) (hij : i ≠ j) :
    rhombusAt g j i l k = (rhombusAt g i j k l).map
      (fun c => (c.1, c.2.2.2, c.2.2.1, c.2.1)) := by
  rw [rhombusAt, rhombusAt, intersectLines_swap]
  cases hI : intersectLines (g.familyNormals i) (familyLineOffset g i k)
      (g.familyNormals j) (familyLineOffset g j l) with
  | none => rfl
  | some p =>
    simp only [Option.map_some']
    have hbase : Function.update (Function.update (cellIndexAt g p) j l) i k
        = Function.update (Function.update (cellIndexAt g p) i k) j l :=
      Function.update_comm hij.symm _ _ _
    rw [hbase]
    congr 1
    refine Prod.ext rfl (Prod.ext rfl (Prod.ext ?_ rfl))
    show vertexFromCellIndex g _ + g.familyVectors j + g.familyVectors i
        = vertexFromCellIndex g _ + g.familyVectors i + g.familyVectors j
    rw [add_assoc, add_assoc, add_comm (g.familyVectors j)]

/-- Claim C9 witness. -/
theorem rhombusAt_swap_witness :
    rhombusAt toySketch 1 0 0 0 = (rhombusAt toySketch 0 1 0 0).map
      (fun c => (c.1, c.2.2.2, c.2.2.1, c.2.1)) :=
  rhombusAt_swap toySketch 0 1 0 0 (by decide)

/-- `rebuild()`: reseed the pseudo-random stream, draw `N−1` offsets and close
them, derive spacing, edge length, line range, and the per-family trigonometric
normals and edge vectors.  The p5 random stream after `randomSeed(seed)` is
modelled as the explicit function `prng seed`. -/
noncomputable def rebuild (prng : ℕ → ℕ → ℝ) (seed : ℕ) (N : ℕ) (w h : ℝ) :
    SketchData ℝ :=
  let baseOffsets := (List.range (N - 1)).map (prng seed)
  let familyOffsets := offsetsFrom baseOffsets
  let lineSpacing := max 40 (min w h / 18)
  let edgeLength := lineSpacing
  let angleStep := 2 * Real.pi / N
  { familyCount := N
    lineSpacing := lineSpacing
    edgeLength := edgeLength
    lineRange := ⌈min w h / lineSpacing⌉ + 10
    familyOffsets := fun i => familyOffsets.getD i 0
    familyNormals := fun i => (Real.cos (angleStep * i), Real.sin (angleStep * i))
    familyVectors := fun i =>
      (Real.cos (angleStep * i) * edgeLength, Real.sin (angleStep * i) * edgeLength) }

/-- Claim C5: for even `N`, the opposite family pair `(i, i + N/2)` has
antiparallel normals, so the intersection determinant is exactly `sin π = 0`,
below the `1e-6` threshold, and `rhombusAt` always returns `none`. -/
theorem rhombusAt_opposite_none (prng : ℕ → ℕ → ℝ) (seed N : ℕ) (w h : ℝ)
    (i : ℕ) (k l : ℤ) (hN : 0 < N) (hEven : N % 2 = 0) :
    rhombusAt (rebuild prng seed N w h) i (i + N / 2) k l = none := by
  set g := rebuild prng seed N w h with hg
  have hNR : (N : ℝ) ≠ 0 := Nat.cast_ne_zero.mpr hN.ne'
  have hba : 2 * Real.pi / N * ((i + N / 2 : ℕ) : ℝ) - 2 * Real.pi / N * (i : ℝ)
      = Real.pi := by
    have hcast : ((N / 2 : ℕ) : ℝ) = (N : ℝ) / 2 :=
      Nat.cast_div (Nat.dvd_of_mod_eq_zero hEven) (by norm_num)
    push_cast
    rw [hcast]
    field_simp
    ring
  have hdet : Real.cos (2 * Real.pi / N * i) * Real.sin (2 * Real.pi / N * ((i + N / 2 : ℕ) : ℝ))
      - Real.sin (2 * Real.pi / N * i) * Real.cos (2 * Real.pi / N * ((i + N / 2 : ℕ) : ℝ))
      = 0 := by
    rw [show Real.cos (2 * Real.pi / N * i) * Real.sin (2 * Real.pi / N * ((i + N / 2 : ℕ) : ℝ))
        - Real.sin (2 * Real.pi / N * i) * Real.cos (2 * Real.pi / N * ((i + N / 2 : ℕ) : ℝ))
        = Real.sin (2 * Real.pi / N * ((i + N / 2 : ℕ) : ℝ) - 2 * Real.pi / N * i) by
      rw [Real.sin_sub]; ring]
    rw [hba, Real.sin_pi]
  have hnone : intersectLines (g.familyNormals i) (familyLineOffset g i k)
      (g.familyNormals (i + N / 2)) (familyLineOffset g (i + N / 2) l) = none := by
    rw [intersectLines]
    rw [if_pos]
    show |(Real.cos (2 * Real.pi / N * i), Real.sin (2 * Real.pi / N * i)).1 *
        (Real.cos (2 * Real.pi / N * (i + N / 2 : ℕ)),
          Real.sin (2 * Real.pi / N * (i + N / 2 : ℕ))).2 -
        (Real.cos (2 * Real.pi / N * i), Real.sin (2 * Real.pi / N * i)).2 *
        (Real.cos (2 * Real.pi / N * (i + N / 2 : ℕ)),
          Real.sin (2 * Real.pi / N * (i + N / 2 : ℕ))).1| < 1 / 1000000
    simp only []
    rw [hdet]
    norm_num
  rw [rhombusAt, hnone]
  rfl

/-- Claim C5 witness. -/
theorem rhombusAt_opposite_none_witness :
    rhombusAt (rebuild (fun _ _ => 0) 1 4 100 100) 0 (0 + 4 / 2) 0 0 = none :=
  rhombusAt_opposite_none (fun _ _ => 0) 1 4 100 100 0 0 0 (by decide) (by decide)

/-- `rhombusType(i, j)` (part_000 lines 139–145): `delta = |i−j|`,
`angle = min(delta, N−delta) · (2π/N)`, `acute = min(angle, π−angle)`;
"thick" when `acute > π/5`, else "thin". -/
noncomputable def rhombusType (N : ℕ) (i j : ℕ) : String :=
  let delta : ℤ := |(i : ℤ) - (j : ℤ)|
  let angle : ℝ := ((min delta ((N : ℤ) - delta) : ℤ) : ℝ) * (2 * Real.pi / N)
  let acute : ℝ := min angle (Real.pi - angle)
  if acute > Real.pi / 5 then "thick" else "thin"

/-- For `N = 5` and `|i−j| ∈ {1,4}`, the inter-family angle is `2π/5` and the
classifier answers "thick". -/
lemma rhombusType_five_thick (i j : ℕ)
    (h : |(i : ℤ) - (j : ℤ)| = 1 ∨ |(i : ℤ) - (j : ℤ)| = 4) :
    rhombusType 5 i j = "thick" := by
  have hπ := Real.pi_pos
  have hm : ((min |(i : ℤ) - (j : ℤ)| (((5 : ℕ) : ℤ) - |(i : ℤ) - (j : ℤ)|) : ℤ) : ℝ)
      = 1 := by
    rcases h with h | h <;> rw [h] <;> norm_num
  rw [rhombusType]
  simp only [hm]
  rw [if_pos]
  rw [gt_iff_lt, lt_min_iff]
  constructor <;> nlinarith

/-- For `N = 5` and `|i−j| ∈ {2,3}`, the inter-family angle is `4π/5`, the
acute representative is exactly `π/5`, and the classifier answers "thin". -/
lemma rhombusType_five_thin (i j : ℕ)
    (h : |(i : ℤ) - (j : ℤ)| = 2 ∨ |(i : ℤ) - (j : ℤ)| = 3) :
    rhombusType 5 i j = "thin" := by
  have hπ := Real.pi_pos
  have hm : ((min |(i : ℤ) - (j : ℤ)| (((5 : ℕ) : ℤ) - |(i : ℤ) - (j : ℤ)|) : ℤ) : ℝ)
      = 2 := by
    rcases h with h | h <;> rw [h] <;> norm_num
  rw [rhombusType]
  simp only [hm]
  rw [if_neg]
  rw [gt_iff_lt, not_lt, min_le_iff]
  right
  nlinarith

/-- Claim C4 counterexample: the claim assigns "thin" to `|i−j| = 1`, but the
classifier returns "thick" for the pair `(0, 1)` at `N = 5`. -/
theorem rhombusType_claim_counterexample :
    rhombusType 5 0 1 = "thick" ∧ rhombusType 5 0 1 ≠ "thin" := by
  have h := rhombusType_five_thick 0 1 (by norm_num)
  exact ⟨h, by rw [h]; decide⟩

/-- Claim C4 (amended): for `N = 5` the classifier produces exactly the two
classes "thick" (for `|i−j| ∈ {1,4}`) and "thin" (for `|i−j| ∈ {2,3}`). -/
theorem rhombusType_five (i j : ℕ) (hi : i < 5) (hj : j < 5) (hij : i ≠ j) :
    rhombusType 5 i j =
      if |(i : ℤ) - (j : ℤ)| = 2 ∨ |(i : ℤ) - (j : ℤ)| = 3 then "thin"
      else "thick" := by
  by_cases hc : |(i : ℤ) - (j : ℤ)| = 2 ∨ |(i : ℤ) - (j : ℤ)| = 3
  · rw [if_pos hc]
    exact rhombusType_five_thin _ _ hc
  · rw [if_neg hc]
    refine rhombusType_five_thick _ _ ?_
    rcases abs_cases ((i : ℤ) - (j : ℤ)) with ⟨h, hsgn⟩ | ⟨h, hsgn⟩ <;>
      rw [h] at hc ⊢ <;> omega

/-- Claim C4 witness. -/
theorem rhombusType_five_witness :
    (0 : ℕ) < 5 ∧ (2 : ℕ) < 5 ∧ (0 : ℕ) ≠ 2 ∧
    rhombusType 5 0 2 =
      (if |((0 : ℕ) : ℤ) - ((2 : ℕ) : ℤ)| = 2 ∨ |((0 : ℕ) : ℤ) - ((2 : ℕ) : ℤ)| = 3
        then "thin" else "thick") :=
  ⟨by decide, by decide, by decide, rhombusType_five 0 2 (by decide) (by decide) (by decide)⟩

/-- The integer loop `for (let k = -lineRange; k <= lineRange; k += 1)`. -/
def intRange (R : ℤ) : List ℤ :=
  (List.range (2 * R + 1).toNat).map fun t : ℕ => (t : ℤ) - R

lemma mem_intRange {R k : ℤ} : k ∈ intRange R ↔ -R ≤ k ∧ k ≤ R := by
  unfold intRange
  simp only [List.mem_map, List.mem_range]
  constructor
  · rintro ⟨t, ht, rfl⟩
    omega
  · intro ⟨h1, h2⟩
    exact ⟨(k + R).toNat, by omega, by omega⟩

/-- A yielded tile: the family pair, the line indices, and the four corners. -/
abbrev Tile (K : Type) := ℕ × ℕ × ℤ × ℤ × Corners K

/-- The tile enumeration of `drawTiles()`: family pairs ascending
(`i < j < FAMILY_COUNT`), then `k`, then `l` over `[-lineRange, lineRange]`;
a combination is skipped when `rhombusAt` gives no corners or the corners
fail the viewport test. -/
def drawTilesList (g : SketchData K) (width height : K) : List (Tile K) :=
  (List.range g.familyCount).flatMap fun i =>
    ((List.range g.familyCount).filter fun j => decide (i < j)).flatMap fun j =>
      (intRange g.lineRange).flatMap fun k =>
        (intRange g.lineRange).filterMap fun l =>
          (rhombusAt g i j k l).bind fun corners =>
            if inViewport width height corners then some (i, j, k, l, corners)
            else none

/-- Claim C6: for any in-range `(i, j, k, l)` whose `rhombusAt` produces
corners, the enumerator yields the tile iff at least one corner lies strictly
inside the `0.55·width × 0.55·height` viewport bound. -/
theorem drawTiles_viewport (g : SketchData K) (width height : K) (i j : ℕ)
    (k l : ℤ) (corners : Corners K) (hij : i < j) (hjN : j < g.familyCount)
    (hk1 : -g.lineRange ≤ k) (hk2 : k ≤ g.lineRange)
    (hl1 : -g.lineRange ≤ l) (hl2 : l ≤ g.lineRange)
    (hc : rhombusAt g i j k l = some corners) :
    (i, j, k, l, corners) ∈ drawTilesList g width height ↔
      inViewport width height corners = true := by
  constructor
  · intro hmem
    unfold drawTilesList at hmem
    simp only [List.mem_flatMap, List.mem_filterMap, List.mem_filter,
      List.mem_range, mem_intRange, decide_eq_true_eq] at hmem
    obtain ⟨i', _, j', _, k', _, l', _, hopt⟩ := hmem
    rw [Option.bind_eq_some] at hopt
    obtain ⟨c', hc', hf⟩ := hopt
    by_cases hv : inViewport width height c' = true
    · rw [if_pos hv] at hf
      have h5 := Option.some.inj hf
      have he1 : i' = i := congrArg (fun t => t.1) h5
      have he2 : j' = j := congrArg (fun t => t.2.1) h5
      have he3 : k' = k := congrArg (fun t => t.2.2.1) h5
      have he4 : l' = l := congrArg (fun t => t.2.2.2.1) h5
      have he5 : c' = corners := congrArg (fun t => t.2.2.2.2) h5
      rw [← he5]
      exact hv
    · rw [if_neg hv] at hf
      exact absurd hf (by simp)
  · intro hv
    unfold drawTilesList
    simp only [List.mem_flatMap, List.mem_filterMap, List.mem_filter,
      List.mem_range, mem_intRange, decide_eq_true_eq]
    refine ⟨i, lt_trans hij hjN, j, ⟨hjN, hij⟩, k, ⟨hk1, hk2⟩, l, ⟨hl1, hl2⟩, ?_⟩
    rw [hc, Option.some_bind, if_pos hv]

/-- Claim C6 witness: the toy tile at the origin is inside a `10 × 10`
viewport, so it is yielded. -/
theorem drawTiles_viewport_witness :
    (0 : ℕ) < 1 ∧ (1 : ℕ) < toySketch.familyCount ∧
    ((0, 1, 0, 0, (((0 : ℚ), (0 : ℚ)), ((1 : ℚ), (0 : ℚ)), ((1 : ℚ), (1 : ℚ)),
        ((0 : ℚ), (1 : ℚ)))) ∈ drawTilesList toySketch 10 10 ↔
      inViewport (10 : ℚ) 10 (((0 : ℚ), (0 : ℚ)), ((1 : ℚ), (0 : ℚ)),
        ((1 : ℚ), (1 : ℚ)), ((0 : ℚ), (1 : ℚ))) = true) :=
  ⟨by decide, by decide,
    drawTiles_viewport toySketch 10 10 0 1 0 0 _ (by decide) (by decide)
      (by decide) (by decide) (by decide) (by decide) toySketch_rhombusAt⟩

/-- Claim C7: generation construction and tile enumeration are deterministic —
two `rebuild` runs from the same pseudo-random stream, seed, family count and
viewport agree on every derived field, and equal generation data enumerates
the identical tile sequence. -/
theorem generation_deterministic :
    (∀ (prng : ℕ → ℕ → ℝ) (seed N : ℕ) (w h : ℝ) (s1 s2 : SketchData ℝ),
      s1 = rebuild prng seed N w h → s2 = rebuild prng seed N w h → s1 = s2) ∧
    (∀ (g g' : SketchData ℝ) (w h : ℝ), g = g' →
      drawTilesList g w h = drawTilesList g' w h) :=
  ⟨fun _ _ _ _ _ _ _ h1 h2 => h1.trans h2.symm,
   fun _ _ _ _ h => by rw [h]⟩

/-- Claim C7 witness. -/
theorem generation_deterministic_witness :
    rebuild (fun _ _ => 0) 1 5 100 100 = rebuild (fun _ _ => 0) 1 5 100 100 ∧
    drawTilesList (rebuild (fun _ _ => 0) 1 5 100 100) 100 100 =
      drawTilesList (rebuild (fun _ _ => 0) 1 5 100 100) 100 100 :=
  ⟨generation_deterministic.1 (fun _ _ => 0) 1 5 100 100 _ _ rfl rfl,
   generation_deterministic.2 _ _ 100 100 rfl⟩

/-- The `UP_ARROW` branch of `keyPressed()` (sketch.js):
`lineRange = min(lineRange + 2, 24)`, then a redraw (no rebuild). -/
def keyPressedUp (s : SketchData K) : SketchData K :=
  { s with lineRange := min (s.lineRange + 2) 24 }

/-- The `DOWN_ARROW` branch of `keyPressed()` (sketch.js):
`lineRange = max(lineRange - 2, 6)`, then a redraw (no rebuild). -/
def keyPressedDown (s : SketchData K) : SketchData K :=
  { s with lineRange := max (s.lineRange - 2) 6 }

/-- Claim C8 counterexample: a 720×720 viewport rebuild produces
`lineRange = ⌈720/40⌉ + 10 = 28`; one decrement then yields `26`, outside
`[6, 24]` — the control clamps on one side only. -/
theorem lineRange_claim_counterexample :
    (rebuild (fun _ _ => 0) 1 8 720 720).lineRange = 28 ∧
    (keyPressedDown (rebuild (fun _ _ => 0) 1 8 720 720)).lineRange = 26 ∧
    ¬((keyPressedDown (rebuild (fun _ _ => 0) 1 8 720 720)).lineRange ≤ 24) := by
  have h : (rebuild (fun _ _ => 0) 1 8 720 720).lineRange = 28 := by
    show ⌈min (720 : ℝ) 720 / max 40 (min (720 : ℝ) 720 / 18)⌉ + 10 = 28
    norm_num
  have h2 : (keyPressedDown (rebuild (fun _ _ => 0) 1 8 720 720)).lineRange = 26 := by
    show max ((rebuild (fun _ _ => 0) 1 8 720 720).lineRange - 2) 6 = 26
    rw [h]
    norm_num
  exact ⟨h, h2, by rw [h2]; norm_num⟩

/-- Claim C8 (amended): the increment control sets `lineRange` to
`min(lineRange+2, 24)` and the decrement to `max(lineRange−2, 6)`; increment
never exceeds 24 and decrement never goes below 6, and a starting value in
`[6, 24]` stays in `[6, 24]`; family offsets, normals, edge vectors and
spacing are untouched (offsets are not re-rolled). -/
theorem lineRange_controls (s : SketchData K) :
    (keyPressedUp s).lineRange = min (s.lineRange + 2) 24 ∧
    (keyPressedDown s).lineRange = max (s.lineRange - 2) 6 ∧
    (keyPressedUp s).lineRange ≤ 24 ∧
    6 ≤ (keyPressedDown s).lineRange ∧
    (6 ≤ s.lineRange → s.lineRange ≤ 24 →
      6 ≤ (keyPressedUp s).lineRange ∧ (keyPressedUp s).lineRange ≤ 24 ∧
      6 ≤ (keyPressedDown s).lineRange ∧ (keyPressedDown s).lineRange ≤ 24) ∧
    (keyPressedUp s).familyOffsets = s.familyOffsets ∧
    (keyPressedUp s).familyNormals = s.familyNormals ∧
    (keyPressedUp s).familyVectors = s.familyVectors ∧
    (keyPressedUp s).lineSpacing = s.lineSpacing ∧
    (keyPressedDown s).familyOffsets = s.familyOffsets ∧
    (keyPressedDown s).familyNormals = s.familyNormals ∧
    (keyPressedDown s).familyVectors = s.familyVectors ∧
    (keyPressedDown s).lineSpacing = s.lineSpacing := by
  refine ⟨rfl, rfl, min_le_right _ _, le_max_right _ _, ?_,
    rfl, rfl, rfl, rfl, rfl, rfl, rfl, rfl⟩
  intro h6 h24
  refine ⟨le_min (by omega) (by norm_num), min_le_right _ _,
    le_max_right _ _, max_le (by omega) (by norm_num)⟩

/-- Claim C8 witness. -/
theorem lineRange_controls_witness :
    (6 : ℤ) ≤ toySketch.lineRange ∧ toySketch.lineRange ≤ 24 ∧
    (6 ≤ (keyPressedUp toySketch).lineRange ∧
      (keyPressedUp toySketch).lineRange ≤ 24 ∧
      6 ≤ (keyPressedDown toySketch).lineRange ∧
      (keyPressedDown toySketch).lineRange ≤ 24) :=
  ⟨by decide, by decide,
    (lineRange_controls toySketch).2.2.2.2.1 (by decide) (by decide)⟩

/-- The color key of the palette variant's `drawTiles()` (part_000 lines
152–158): `familyPair = i*FAMILY_COUNT + j`, `colorSeed = familyPair + k + l`,
`colorIndex = ((colorSeed % paletteSize) + paletteSize) % paletteSize`, with
JavaScript's truncating `%`. -/
def colorIndex (N i j : ℕ) (k l : ℤ) (paletteSize : ℤ) : ℤ :=
  let familyPair : ℤ := (i : ℤ) * N + j
  let colorSeed := familyPair + k + l
  (colorSeed.tmod paletteSize + paletteSize).tmod paletteSize

/-- Claim C10: the double-mod color index always lies in `[0, paletteSize)`,
even when `k + l` makes the first truncating `%` negative. -/
theorem colorIndex_bounds (N i j : ℕ) (k l : ℤ) (p : ℤ) (hp : 0 < p) :
    0 ≤ colorIndex N i j k l p ∧ colorIndex N i j k l p < p := by
  unfold colorIndex
  set s : ℤ := (i : ℤ) * N + j + k + l with hs0
  have h1 : s.tmod p < p := Int.tmod_lt_of_pos s hp
  have h2 : -p < s.tmod p := by
    rcases le_or_lt 0 s with hs | hs
    · have := Int.tmod_nonneg p hs
      linarith
    · have hneg : s.tmod p = -((-s).tmod p) := by
        rw [Int.tmod_def, Int.tmod_def, Int.neg_tdiv]
        ring
      rw [hneg]
      have := Int.tmod_lt_of_pos (-s) hp
      linarith
  have h0 : 0 ≤ s.tmod p + p := by linarith
  have heq : (s.tmod p + p).tmod p = (s.tmod p + p) % p := Int.tmod_eq_emod h0 hp.le
  rw [heq]
  exact ⟨Int.emod_nonneg _ hp.ne', Int.emod_lt_of_pos _ hp⟩

/-- Claim C10 witness: family pair (0,1) with `k + l = -20` and the 15-color
qingxin palette. -/
theorem colorIndex_bounds_witness :
    (0 : ℤ) < 15 ∧
    0 ≤ colorIndex 5 0 1 (-20) 0 15 ∧ colorIndex 5 0 1 (-20) 0 15 < 15 :=
  ⟨by decide, colorIndex_bounds 5 0 1 (-20) 0 15 (by decide)⟩

end Penrose
